import Mathlib

/-!
Shallow embedding of the agent loop in `agent.go` (package `main`):
the tool dispatcher (`ExecuteTool`), the loop body of `Run`, and the
network transport bridge (`readFromNetwork` / `writeToNetwork`).

Modelling conventions:
* `json.RawMessage` payloads and error values are plain `String`s.
* A Go `(T, error)` return is `Except String T`.
* The anthropic SDK content-block union is `ContentBlock`; its `.Text`
  field is `""` on non-text members, as for the Go union struct.
* The fan-out/fan-in over tool-use blocks in `Run` (one goroutine per
  block, results collected from a shared channel) is modelled as the
  in-issuance-order list of results; identifier-matching properties are
  order-insensitive, so they hold for every collection order.
* Effects that the claims mention (which turns get appended, which tool
  functions actually run, what is emitted) are exposed as an explicit
  event trace returned next to the step result.
-/

namespace GoAgent

/-- One content block of a model response (anthropic content-block union):
either a text segment or a tool-invocation request `{ID, Name, Input}`. -/
inductive ContentBlock where
  | text (t : String)
  | toolUse (id : String) (toolName : String) (input : String)
  deriving DecidableEq, Repr

/-- The `.Text` field of the SDK union struct: the text for a text block,
the zero value `""` for a tool-use block. -/
def ContentBlock.Text : ContentBlock → String
  | .text t => t
  | .toolUse _ _ _ => ""

/-- Embedding of `anthropic.NewToolResultBlock(toolID, content, isError)`:
a tool invocation result `{call identifier, output text, failure flag}`. -/
structure ToolResultBlock where
  tool_use_id : String
  content : String
  is_error : Bool
  deriving DecidableEq, Repr

/-- A registered tool: `ToolDefinition{Name, Description, InputSchema, Function}`
(fields as initialized in `coder_agent.go` / `documentation_agent.go`;
the schema is irrelevant to dispatch and kept as a string). -/
structure ToolDefinition where
  name : String
  description : String
  inputSchema : String
  function : String → Except String String

/-- Embedding of `Agent.ExecuteTool` (`agent.go:209-241`): look the name up in the
agent's tool list (first match wins); unknown name yields a failed
result with the fixed message `"Tool not found"` without running any
function; otherwise run the tool's function and wrap its output or its
error. The second component records which registered tool functions
were actually invoked. -/
def ExecuteTool (tools : List ToolDefinition) (toolID toolName toolInput : String) :
    ToolResultBlock × List String :=
  match tools.find? (fun tool => tool.name == toolName) with
  | none => (⟨toolID, "Tool not found", true⟩, [])
  | some toolDef =>
    match toolDef.function toolInput with
    | .error err => (⟨toolID, err, true⟩, [toolDef.name])
    | .ok result => (⟨toolID, result, false⟩, [toolDef.name])

/-- The ordered tool-invocation requests of one model turn: the
`ToolUseBlock` members of the response content, in order
(`agent.go:154-167`). -/
def toolRequests (content : List ContentBlock) : List (String × String × String) :=
  content.filterMap fun block =>
    match block with
    | .text _ => none
    | .toolUse id toolName input => some (id, toolName, input)

/-- The fan-out/fan-in of `Run` (`agent.go:151-172`): one unit of work
per tool-use block, each running `ExecuteTool` on that block's ID, name
and input; all results are collected before the loop continues.  Results
are listed in issuance order; the Go code receives them in completion
order, a permutation that no stated property depends on.  The second
component is the trace of invoked tool functions. -/
def dispatchTools (tools : List ToolDefinition) (content : List ContentBlock) :
    List ToolResultBlock × List String :=
  let outs := (toolRequests content).map fun req => ExecuteTool tools req.1 req.2.1 req.2.2
  (outs.map Prod.fst, (outs.map Prod.snd).flatten)

/-- One turn of the transcript (`anthropic.MessageParam`): a user text
turn (`NewUserMessage(NewTextBlock input)`), the model's response turn
(`response.ToParam()`), or a user turn carrying tool results
(`NewUserMessage(toolResults...)`). -/
inductive MessageParam where
  | userText (input : String)
  | assistant (content : List ContentBlock)
  | userToolResults (results : List ToolResultBlock)
  deriving DecidableEq, Repr

/-- A model response (`anthropic.Message`), reduced to its content list. -/
structure ModelMessage where
  content : List ContentBlock
  deriving DecidableEq, Repr

/-- The mutable state of one `Run` loop iteration: the `takeInput` flag
and the transcript `messages`. -/
structure RunState where
  takeInput : Bool
  messages : List MessageParam
  deriving DecidableEq, Repr

/-- Observable effects of one loop iteration, in program order. -/
inductive Event where
  | evRead (input : String)
  | evInfer
  | evAppend (turn : MessageParam)
  | evInvoke (toolName : String)
  | evEmit (text : String) (writeOutcome : Option String)
  deriving DecidableEq, Repr

/-- Outcome of one iteration of the `for` loop in `Run`
(`agent.go:128-181`): continue with a new state (having possibly
emitted output), return `("", err)` to the caller, or panic on an
out-of-bounds index. -/
inductive StepResult where
  | stepNext (s : RunState) (emitted : Option String)
  | stepFatal (output : String) (err : String)
  | stepPanic (s : RunState)
  deriving DecidableEq, Repr

/-- The part of the loop body after input handling (`agent.go:140-180`):
call `Infer` (fatal on error), append the response turn, fan-out/fan-in
over the tool-use blocks, then either emit `response.Content[0].Text`
(restoring `takeInput`) when no tool results were produced — a panic
when the content list is empty — or append the tool results as one user
turn and clear `takeInput`.  `writeOutcome` is the advisory error value
the transport's write returns; the code discards it. -/
def runStepInfer (tools : List ToolDefinition)
    (infer : List MessageParam → Except String ModelMessage)
    (writeOutcome : Option String) (s : RunState) (evs : List Event) :
    StepResult × List Event :=
  match infer s.messages with
  | .error e => (.stepFatal "" e, evs ++ [.evInfer])
  | .ok response =>
    let messages1 := s.messages ++ [.assistant response.content]
    let toolResults := (dispatchTools tools response.content).1
    let invoked := (dispatchTools tools response.content).2
    let evs1 := evs ++ [.evInfer, .evAppend (.assistant response.content)]
        ++ invoked.map .evInvoke
    if toolResults.isEmpty then
      match response.content[0]? with
      | none => (.stepPanic { takeInput := true, messages := messages1 }, evs1)
      | some block =>
        (.stepNext { takeInput := true, messages := messages1 } (some block.Text),
         evs1 ++ [.evEmit block.Text writeOutcome])
    else
      (.stepNext { takeInput := false,
                   messages := messages1 ++ [.userToolResults toolResults] } none,
       evs1 ++ [.evAppend (.userToolResults toolResults)])

/-- One full iteration of the `for` loop in `Run` (`agent.go:128-181`):
when `takeInput` is set, first read input — fatal on read error —
and append it as a user turn; then proceed as `runStepInfer`. -/
def runStep (tools : List ToolDefinition) (readRes : Except String String)
    (infer : List MessageParam → Except String ModelMessage)
    (writeOutcome : Option String) (s : RunState) : StepResult × List Event :=
  if s.takeInput then
    match readRes with
    | .error e => (.stepFatal "" e, [])
    | .ok input =>
      runStepInfer tools infer writeOutcome
        { s with messages := s.messages ++ [.userText input] }
        [.evRead input, .evAppend (.userText input)]
  else
    runStepInfer tools infer writeOutcome s []

/-- Result of running the loop with bounded fuel: `Run` returned
`(output, err)`, the loop panicked, or the fuel ran out (the Go loop
has no normal exit). -/
inductive RunOutcome where
  | finished (output : String) (err : String)
  | panicked (s : RunState)
  | outOfFuel (s : RunState)
  deriving DecidableEq, Repr

/-- Embedding of `Agent.Run` (`agent.go:111-182`), iterated with fuel.  `reads` is
the stream of outcomes of successive `readInput` calls, consumed only
on iterations whose `takeInput` is set; `infer` is the model client as
a function of the transcript. -/
def Run (tools : List ToolDefinition)
    (infer : List MessageParam → Except String ModelMessage)
    (writeOutcome : Option String) :
    List (Except String String) → Nat → RunState → RunOutcome
  | _, 0, s => .outOfFuel s
  | reads, fuel + 1, s =>
    let readRes := if s.takeInput then reads.headD (.error "eof") else .ok ""
    let reads1 := if s.takeInput then reads.tail else reads
    match (runStep tools readRes infer writeOutcome s).1 with
    | .stepFatal out e => .finished out e
    | .stepPanic s1 => .panicked s1
    | .stepNext s1 _ => Run tools infer writeOutcome reads1 fuel s1

/-- The initial state of `Run` (`agent.go:112-114`): `takeInput := true`,
empty transcript. -/
def initialState : RunState := { takeInput := true, messages := [] }

/-- An `http.ResponseWriter` as `writeToNetwork` uses it: the headers
set, the status code written, the accumulated body, and — supplied by
the environment — the error, if any, that its `Write` call reports. -/
structure ResponseWriter where
  headers : List (String × String)
  status : Option Nat
  body : String
  writeErr : Option String
  deriving DecidableEq, Repr

/-- The three handshake channels created in `NewAgent`
(`agent.go:63-65`), each with buffer capacity 1; contents are modelled
as the queue of pending items. -/
structure Channels where
  requestChan : List String
  responseChan : List ResponseWriter
  doneChan : List Bool
  deriving DecidableEq, Repr

/-- Buffer capacity of each handshake channel (`make(chan …, 1)`,
`agent.go:63-65`). -/
def channelCapacity : Nat := 1

/-- Embedding of `Agent.readFromNetwork` (`agent.go:244-257`): block until the
inbound-request slot holds an item (`none` models a blocked call), take
it and return its body as text. -/
def readFromNetwork (chans : Channels) : Option (Channels × Except String String) :=
  match chans.requestChan with
  | [] => none
  | body :: rest => some ({ chans with requestChan := rest }, .ok body)

/-- Embedding of `Agent.writeToNetwork` (`agent.go:260-276`): block until the
outbound-response slot holds a writer (`none` models a blocked call),
take it, set the content type, write status 200 and then the message
body (which appends nothing when the underlying `Write` fails), raise
the completion signal, and return the write's error value. -/
def writeToNetwork (chans : Channels) (message : String) :
    Option (Channels × ResponseWriter × Option String) :=
  match chans.responseChan with
  | [] => none
  | w :: rest =>
    let w1 := { w with
      headers := w.headers ++ [("Content-Type", "text/plain")],
      status := some 200,
      body := match w.writeErr with
        | some _ => w.body
        | none => w.body ++ message }
    some ({ chans with responseChan := rest, doneChan := chans.doneChan ++ [true] },
      w1, w1.writeErr)

/-! ### Helper lemmas -/

theorem executeTool_fst_id (tools : List ToolDefinition) (toolID toolName toolInput : String) :
    ((ExecuteTool tools toolID toolName toolInput).1).tool_use_id = toolID := by
  unfold ExecuteTool
  split
  · rfl
  · split <;> rfl

theorem dispatchTools_fst (tools : List ToolDefinition) (content : List ContentBlock) :
    (dispatchTools tools content).1 =
      (toolRequests content).map (fun req => (ExecuteTool tools req.1 req.2.1 req.2.2).1) := by
  unfold dispatchTools
  simp

theorem dispatchTools_nil (tools : List ToolDefinition) (content : List ContentBlock)
    (h : toolRequests content = []) : dispatchTools tools content = ([], []) := by
  unfold dispatchTools
  rw [h]
  rfl

theorem runStepInfer_inferError (tools : List ToolDefinition)
    (infer : List MessageParam → Except String ModelMessage)
    (wo : Option String) (s : RunState) (evs : List Event) (e : String)
    (h : infer s.messages = .error e) :
    runStepInfer tools infer wo s evs = (.stepFatal "" e, evs ++ [.evInfer]) := by
  unfold runStepInfer
  rw [h]

theorem runStepInfer_noTools (tools : List ToolDefinition)
    (infer : List MessageParam → Except String ModelMessage)
    (wo : Option String) (s : RunState) (evs : List Event) (content : List ContentBlock)
    (hinf : infer s.messages = .ok ⟨content⟩) (h : toolRequests content = []) :
    runStepInfer tools infer wo s evs =
      match content[0]? with
      | none => (.stepPanic ⟨true, s.messages ++ [.assistant content]⟩,
                 evs ++ [.evInfer, .evAppend (.assistant content)])
      | some block =>
          (.stepNext ⟨true, s.messages ++ [.assistant content]⟩ (some block.Text),
           evs ++ [.evInfer, .evAppend (.assistant content)] ++ [.evEmit block.Text wo]) := by
  unfold runStepInfer
  rw [hinf]
  simp [dispatchTools_nil tools content h]

theorem runStepInfer_emptyContent (tools : List ToolDefinition)
    (infer : List MessageParam → Except String ModelMessage)
    (wo : Option String) (s : RunState) (evs : List Event)
    (hinf : infer s.messages = .ok ⟨[]⟩) :
    runStepInfer tools infer wo s evs =
      (.stepPanic ⟨true, s.messages ++ [.assistant []]⟩,
       evs ++ [.evInfer, .evAppend (.assistant [])]) := by
  rw [runStepInfer_noTools tools infer wo s evs [] hinf rfl]
  simp

theorem runStepInfer_emit (tools : List ToolDefinition)
    (infer : List MessageParam → Except String ModelMessage)
    (wo : Option String) (s : RunState) (evs : List Event)
    (b : ContentBlock) (rest : List ContentBlock)
    (hinf : infer s.messages = .ok ⟨b :: rest⟩)
    (h : toolRequests (b :: rest) = []) :
    runStepInfer tools infer wo s evs =
      (.stepNext ⟨true, s.messages ++ [.assistant (b :: rest)]⟩ (some b.Text),
       evs ++ [.evInfer, .evAppend (.assistant (b :: rest))] ++ [.evEmit b.Text wo]) := by
  rw [runStepInfer_noTools tools infer wo s evs (b :: rest) hinf h]
  simp

theorem runStepInfer_withTools (tools : List ToolDefinition)
    (infer : List MessageParam → Except String ModelMessage)
    (wo : Option String) (s : RunState) (evs : List Event) (content : List ContentBlock)
    (hinf : infer s.messages = .ok ⟨content⟩) (h : toolRequests content ≠ []) :
    runStepInfer tools infer wo s evs =
      (.stepNext ⟨false, s.messages ++ [.assistant content]
          ++ [.userToolResults (dispatchTools tools content).1]⟩ none,
       evs ++ [.evInfer, .evAppend (.assistant content)]
         ++ ((dispatchTools tools content).2).map .evInvoke
         ++ [.evAppend (.userToolResults (dispatchTools tools content).1)]) := by
  unfold runStepInfer
  rw [hinf]
  have hne : ((dispatchTools tools content).1).isEmpty = false := by
    rw [dispatchTools_fst]
    cases hc : toolRequests content with
    | nil => exact absurd hc h
    | cons a l => simp
  simp [hne]

/-! ### Concrete fixtures used by the witnesses -/

/-- A small tool set in the shape of `CoderTools`: one tool that
succeeds and one whose function returns an error. -/
def demoTools : List ToolDefinition :=
  [⟨"read_file", "Read the contents of a file.", "schema",
      fun input => .ok ("contents of " ++ input)⟩,
   ⟨"fail_tool", "Always fails.", "schema", fun _ => .error "boom"⟩]

/-- A model turn with one text segment and two tool-use blocks (one of
them naming an unregistered tool). -/
def demoContent : List ContentBlock :=
  [.text "let me look",
   .toolUse "id1" "read_file" "go.mod",
   .toolUse "id2" "list_files" "."]

/-! ### Claims -/

/-- C1: for every model turn, the fed-back turn contains exactly one
tool-invocation result per request, matched one-to-one by call
identifier (in issuance order, hence no drop and no duplicate), every
result `ExecuteTool` returns carries the call identifier of the request
it was given, and the turn appended to the transcript is exactly the
dispatcher's result list. -/
theorem toolResults_match_requests (tools : List ToolDefinition) (content : List ContentBlock) :
    ((dispatchTools tools content).1.map ToolResultBlock.tool_use_id
        = (toolRequests content).map (fun req => req.1))
    ∧ (∀ toolID toolName toolInput : String,
        ((ExecuteTool tools toolID toolName toolInput).1).tool_use_id = toolID)
    ∧ (∀ (infer : List MessageParam → Except String ModelMessage)
        (wo : Option String) (s : RunState) (evs : List Event),
        infer s.messages = .ok ⟨content⟩ → toolRequests content ≠ [] →
        (runStepInfer tools infer wo s evs).1
          = .stepNext ⟨false, s.messages ++ [.assistant content]
              ++ [.userToolResults (dispatchTools tools content).1]⟩ none) := by
  refine ⟨?_, fun toolID toolName toolInput => executeTool_fst_id tools toolID toolName toolInput,
    fun infer wo s evs hinf hne => ?_⟩
  · rw [dispatchTools_fst]
    induction toolRequests content with
    | nil => rfl
    | cons r rs ih => simp [executeTool_fst_id, ih]
  · rw [runStepInfer_withTools tools infer wo s evs content hinf hne]

/-- C1 witness: the fed-back turn for `demoContent` under `demoTools`. -/
theorem toolResults_match_requests_witness :
    (runStepInfer demoTools (fun _ => .ok ⟨demoContent⟩) none ⟨false, []⟩ []).1
      = .stepNext ⟨false, [] ++ [.assistant demoContent]
          ++ [.userToolResults (dispatchTools demoTools demoContent).1]⟩ none :=
  (toolResults_match_requests demoTools demoContent).2.2
    (fun _ => .ok ⟨demoContent⟩) none ⟨false, []⟩ [] rfl (by decide)

/-- C3: for every tool name not registered in the agent's tool set,
`ExecuteTool` produces a result with the failure flag set and the fixed
message `"Tool not found"`, and invokes no registered tool's function. -/
theorem executeTool_unknown_name (tools : List ToolDefinition) (toolID toolName toolInput : String)
    (h : ∀ tool ∈ tools, tool.name ≠ toolName) :
    ExecuteTool tools toolID toolName toolInput = (⟨toolID, "Tool not found", true⟩, []) := by
  unfold ExecuteTool
  have hfind : tools.find? (fun tool => tool.name == toolName) = none := by
    rw [List.find?_eq_none]
    intro t ht
    simpa using h t ht
  rw [hfind]

/-- C3 witness: dispatching the unregistered name `"delete_everything"`
against `demoTools`. -/
theorem executeTool_unknown_name_witness :
    (∀ tool ∈ demoTools, tool.name ≠ "delete_everything")
    ∧ ExecuteTool demoTools "id9" "delete_everything" "x"
        = (⟨"id9", "Tool not found", true⟩, []) := by
  have h : ∀ tool ∈ demoTools, tool.name ≠ "delete_everything" := by
    intro t ht
    simp only [demoTools, List.mem_cons, List.mem_singleton] at ht
    rcases ht with h | h | h
    · rw [h]; decide
    · rw [h]; decide
    · cases h
  exact ⟨h, executeTool_unknown_name demoTools "id9" "delete_everything" "x" h⟩

/-- C2: for every model response with zero tool-invocation requests, the
loop transitions to emitting without invoking the tool dispatcher (the
trace holds no tool invocation), and what is emitted is the text of the
first content segment only — later segments appear nowhere in the
emission. -/
theorem zero_tools_emits_first_segment (tools : List ToolDefinition)
    (infer : List MessageParam → Except String ModelMessage)
    (wo : Option String) (s : RunState) (evs : List Event)
    (b : ContentBlock) (rest : List ContentBlock)
    (hinf : infer s.messages = .ok ⟨b :: rest⟩)
    (h : toolRequests (b :: rest) = []) :
    runStepInfer tools infer wo s evs
      = (.stepNext ⟨true, s.messages ++ [.assistant (b :: rest)]⟩ (some b.Text),
         evs ++ [.evInfer, .evAppend (.assistant (b :: rest))] ++ [.evEmit b.Text wo]) := by
  rw [runStepInfer_noTools tools infer wo s evs (b :: rest) hinf h]
  simp

/-- C2 witness: a two-segment all-text response emits only the first
segment. -/
theorem zero_tools_emits_first_segment_witness :
    runStepInfer demoTools (fun _ => .ok ⟨[.text "hello", .text "world"]⟩) none ⟨true, []⟩ []
      = (.stepNext ⟨true, [] ++ [.assistant [.text "hello", .text "world"]]⟩
           (some (ContentBlock.text "hello").Text),
         [] ++ [.evInfer, .evAppend (.assistant [.text "hello", .text "world"])]
           ++ [.evEmit (ContentBlock.text "hello").Text none]) :=
  zero_tools_emits_first_segment demoTools (fun _ => .ok ⟨[.text "hello", .text "world"]⟩)
    none ⟨true, []⟩ [] (.text "hello") [.text "world"] rfl (by decide)

/-- C10: in the emitting branch the first content element is accessed
without a guard: for a zero-tool response the step is the out-of-bounds
panic exactly when the response content is empty, so emission is
well-defined only under the precondition that a zero-tool response has
at least one content segment. -/
theorem emit_panics_iff_empty_content (tools : List ToolDefinition)
    (infer : List MessageParam → Except String ModelMessage)
    (wo : Option String) (s : RunState) (evs : List Event) (content : List ContentBlock)
    (hinf : infer s.messages = .ok ⟨content⟩)
    (h : toolRequests content = []) :
    ((runStepInfer tools infer wo s evs).1
        = .stepPanic ⟨true, s.messages ++ [.assistant content]⟩)
      ↔ content = [] := by
  rw [runStepInfer_noTools tools infer wo s evs content hinf h]
  cases content with
  | nil => simp
  | cons b rest => simp

/-- C10 witness: the empty zero-tool response panics. -/
theorem emit_panics_iff_empty_content_witness :
    (((runStepInfer demoTools (fun _ => .ok ⟨[]⟩) none ⟨true, []⟩ []).1
        = .stepPanic ⟨true, [] ++ [.assistant []]⟩) ↔ ([] : List ContentBlock) = []) :=
  emit_panics_iff_empty_content demoTools (fun _ => .ok ⟨[]⟩) none ⟨true, []⟩ [] [] rfl rfl

theorem runStepInfer_next_takeInput (tools : List ToolDefinition)
    (infer : List MessageParam → Except String ModelMessage)
    (wo : Option String) (s : RunState) (evs : List Event)
    (s' : RunState) (em : Option String) (evs' : List Event)
    (h : runStepInfer tools infer wo s evs = (.stepNext s' em, evs')) :
    s'.takeInput = em.isSome := by
  cases hinf : infer s.messages with
  | error e =>
    rw [runStepInfer_inferError tools infer wo s evs e hinf] at h
    simp at h
  | ok response =>
    obtain ⟨content⟩ := response
    by_cases hreq : toolRequests content = []
    · cases content with
      | nil =>
        rw [runStepInfer_emptyContent tools infer wo s evs hinf] at h
        simp at h
      | cons b rest =>
        rw [runStepInfer_emit tools infer wo s evs b rest hinf hreq] at h
        have h1 := congrArg Prod.fst h
        injection h1 with hs he
        rw [← hs, ← he]
        rfl
    · rw [runStepInfer_withTools tools infer wo s evs content hinf hreq] at h
      have h1 := congrArg Prod.fst h
      injection h1 with hs he
      rw [← hs, ← he]
      rfl

theorem runStepInfer_trace_prefix (tools : List ToolDefinition)
    (infer : List MessageParam → Except String ModelMessage)
    (wo : Option String) (s : RunState) (evs : List Event) :
    ∃ t, (runStepInfer tools infer wo s evs).2 = evs ++ t := by
  cases hinf : infer s.messages with
  | error e =>
    exact ⟨[.evInfer], by rw [runStepInfer_inferError tools infer wo s evs e hinf]⟩
  | ok response =>
    obtain ⟨content⟩ := response
    by_cases hreq : toolRequests content = []
    · cases content with
      | nil =>
        exact ⟨[.evInfer, .evAppend (.assistant [])],
          by rw [runStepInfer_emptyContent tools infer wo s evs hinf]⟩
      | cons b rest =>
        refine ⟨[.evInfer, .evAppend (.assistant (b :: rest))] ++ [.evEmit b.Text wo], ?_⟩
        rw [runStepInfer_emit tools infer wo s evs b rest hinf hreq]
        simp
    · refine ⟨[.evInfer, .evAppend (.assistant content)]
          ++ ((dispatchTools tools content).2).map .evInvoke
          ++ [.evAppend (.userToolResults (dispatchTools tools content).1)], ?_⟩
      rw [runStepInfer_withTools tools infer wo s evs content hinf hreq]
      simp

/-- C4: input is re-read exactly when the previous cycle emitted: a
continuing step leaves `takeInput` set exactly when it emitted output,
a step whose `takeInput` is false (a turn generated by tool feedback)
never consults the read operation at all, and a step whose `takeInput`
is set begins by reading input before inferring. -/
theorem takeInput_iff_emitted (tools : List ToolDefinition)
    (readRes : Except String String)
    (infer : List MessageParam → Except String ModelMessage)
    (wo : Option String) (s s' : RunState) (em : Option String) (evs : List Event)
    (h : runStep tools readRes infer wo s = (.stepNext s' em, evs)) :
    s'.takeInput = em.isSome
    ∧ (s.takeInput = false →
        ∀ readRes', runStep tools readRes' infer wo s = runStep tools readRes infer wo s)
    ∧ (∀ input, s.takeInput = true → readRes = .ok input →
        ∃ evs1, evs = [.evRead input, .evAppend (.userText input)] ++ evs1) := by
  refine ⟨?_, ?_, ?_⟩
  · unfold runStep at h
    cases hti : s.takeInput with
    | false =>
      rw [hti] at h
      simp only [Bool.false_eq_true, if_false] at h
      exact runStepInfer_next_takeInput tools infer wo s [] s' em evs h
    | true =>
      rw [hti] at h
      simp only [if_true] at h
      cases readRes with
      | error e => simp at h
      | ok input =>
        exact runStepInfer_next_takeInput tools infer wo _ _ s' em evs h
  · intro hf readRes'
    unfold runStep
    rw [hf]
    simp
  · intro input ht hr
    have h2 := congrArg Prod.snd h
    unfold runStep at h2
    rw [ht, hr] at h2
    simp only [if_true] at h2
    obtain ⟨t, hp⟩ := runStepInfer_trace_prefix tools infer wo
      { s with messages := s.messages ++ [.userText input] }
      [.evRead input, .evAppend (.userText input)]
    rw [ht] at hp
    exact ⟨t, by rw [← h2, hp]⟩

/-- C4 witness: a cycle that emits leaves `takeInput` set and began with
a read. -/
theorem takeInput_iff_emitted_witness :
    ((⟨true, [.userText "hi", .assistant [.text "hello"]]⟩ : RunState).takeInput
        = (some "hello").isSome)
    ∧ ((⟨true, ([] : List MessageParam)⟩ : RunState).takeInput = false →
        ∀ readRes', runStep demoTools readRes' (fun _ => .ok ⟨[.text "hello"]⟩) none ⟨true, []⟩
          = runStep demoTools (.ok "hi") (fun _ => .ok ⟨[.text "hello"]⟩) none ⟨true, []⟩)
    ∧ (∀ input, (⟨true, ([] : List MessageParam)⟩ : RunState).takeInput = true →
        (Except.ok "hi" : Except String String) = .ok input →
        ∃ evs1, [Event.evRead "hi", .evAppend (.userText "hi"), .evInfer,
            .evAppend (.assistant [.text "hello"]), .evEmit "hello" none]
          = [.evRead input, .evAppend (.userText input)] ++ evs1) :=
  takeInput_iff_emitted demoTools (.ok "hi") (fun _ => .ok ⟨[.text "hello"]⟩) none ⟨true, []⟩
    ⟨true, [.userText "hi", .assistant [.text "hello"]]⟩ (some "hello")
    [.evRead "hi", .evAppend (.userText "hi"), .evInfer,
     .evAppend (.assistant [.text "hello"]), .evEmit "hello" none] (by decide)

/-- C7: an input read failure and a model-client failure are each fatal:
whichever of the read and the inference fails on the current iteration,
`Run` returns at once with that error and the empty output string, for
every remaining fuel and input stream — no retry, no further
transition. -/
theorem read_or_infer_error_fatal (tools : List ToolDefinition)
    (infer : List MessageParam → Except String ModelMessage)
    (wo : Option String) (e : String)
    (reads rest : List (Except String String)) (fuel : Nat) (s : RunState) :
    (s.takeInput = true →
      Run tools infer wo (.error e :: rest) (fuel + 1) s = .finished "" e)
    ∧ (s.takeInput = false → infer s.messages = .error e →
      Run tools infer wo reads (fuel + 1) s = .finished "" e)
    ∧ (∀ input, s.takeInput = true →
      infer (s.messages ++ [.userText input]) = .error e →
      Run tools infer wo (.ok input :: rest) (fuel + 1) s = .finished "" e) := by
  refine ⟨fun ht => ?_, fun hf hinf => ?_, fun input ht hinf => ?_⟩
  · have hstep : runStep tools (.error e) infer wo s = (.stepFatal "" e, []) := by
      unfold runStep
      rw [ht]
      simp
    unfold Run
    simp [ht, hstep]
  · have hstep : runStep tools (.ok "") infer wo s = (.stepFatal "" e, [] ++ [.evInfer]) := by
      unfold runStep
      rw [hf]
      simp only [Bool.false_eq_true, if_false]
      exact runStepInfer_inferError tools infer wo s [] e hinf
    unfold Run
    simp [hf, hstep]
  · have hstep : runStep tools (.ok input) infer wo s
        = (.stepFatal "" e, [.evRead input, .evAppend (.userText input)] ++ [.evInfer]) := by
      unfold runStep
      rw [ht]
      simp only [if_true]
      exact runStepInfer_inferError tools infer wo
        { s with messages := s.messages ++ [.userText input] }
        [.evRead input, .evAppend (.userText input)] e hinf
    unfold Run
    simp [ht, hstep]

/-- C7 witness: a failing read and a failing model call each end `Run`
with `("", err)`. -/
theorem read_or_infer_error_fatal_witness :
    Run demoTools (fun _ => .ok ⟨[.text "hi"]⟩) none [.error "net down"] 1 initialState
        = .finished "" "net down"
    ∧ Run demoTools (fun _ => .error "llm down") none [] 1 ⟨false, []⟩
        = .finished "" "llm down"
    ∧ Run demoTools (fun _ => .error "llm down") none [.ok "q"] 1 initialState
        = .finished "" "llm down" :=
  ⟨(read_or_infer_error_fatal demoTools (fun _ => .ok ⟨[.text "hi"]⟩) none "net down"
      [] [] 0 initialState).1 rfl,
   (read_or_infer_error_fatal demoTools (fun _ => .error "llm down") none "llm down"
      [] [] 0 ⟨false, []⟩).2.1 rfl rfl,
   (read_or_infer_error_fatal demoTools (fun _ => .error "llm down") none "llm down"
      [] [] 0 initialState).2.2 "q" rfl rfl⟩

/-- C6: a tool execution failure is not fatal: when the registered
tool's function returns an error, `ExecuteTool` produces a result
carrying that error's message with the failure flag set, the result is
fed back into the transcript as the next turn, and the loop continues
to the next model call (`stepNext` with `takeInput` cleared) instead of
returning. -/
theorem tool_error_not_fatal (tools : List ToolDefinition) (td : ToolDefinition)
    (toolID toolName toolInput e : String)
    (hfind : tools.find? (fun tool => tool.name == toolName) = some td)
    (herr : td.function toolInput = .error e) :
    ExecuteTool tools toolID toolName toolInput = (⟨toolID, e, true⟩, [td.name])
    ∧ (∀ (infer : List MessageParam → Except String ModelMessage)
        (wo : Option String) (s : RunState) (evs : List Event),
        infer s.messages = .ok ⟨[.toolUse toolID toolName toolInput]⟩ →
        runStepInfer tools infer wo s evs
          = (.stepNext ⟨false, s.messages
                ++ [.assistant [.toolUse toolID toolName toolInput]]
                ++ [.userToolResults [⟨toolID, e, true⟩]]⟩ none,
             evs ++ [.evInfer, .evAppend (.assistant [.toolUse toolID toolName toolInput])]
               ++ [.evInvoke td.name]
               ++ [.evAppend (.userToolResults [⟨toolID, e, true⟩])])) := by
  have hexec : ExecuteTool tools toolID toolName toolInput = (⟨toolID, e, true⟩, [td.name]) := by
    unfold ExecuteTool
    rw [hfind]
    dsimp only
    rw [herr]
  refine ⟨hexec, fun infer wo s evs hinf => ?_⟩
  have hdis : dispatchTools tools [.toolUse toolID toolName toolInput]
      = ([⟨toolID, e, true⟩], [td.name]) := by
    unfold dispatchTools toolRequests
    simp [hexec]
  rw [runStepInfer_withTools tools infer wo s evs _ hinf (by simp [toolRequests])]
  rw [hdis]
  simp

/-- C6 witness: the failing `fail_tool` of `demoTools` yields a failed
result that is fed back while the loop continues. -/
theorem tool_error_not_fatal_witness :
    ExecuteTool demoTools "id2" "fail_tool" "x" = (⟨"id2", "boom", true⟩, ["fail_tool"])
    ∧ runStepInfer demoTools (fun _ => .ok ⟨[.toolUse "id2" "fail_tool" "x"]⟩)
        none ⟨false, []⟩ []
      = (.stepNext ⟨false, []
            ++ [.assistant [.toolUse "id2" "fail_tool" "x"]]
            ++ [.userToolResults [⟨"id2", "boom", true⟩]]⟩ none,
         [] ++ [.evInfer, .evAppend (.assistant [.toolUse "id2" "fail_tool" "x"])]
           ++ [.evInvoke "fail_tool"]
           ++ [.evAppend (.userToolResults [⟨"id2", "boom", true⟩])]) :=
  ⟨(tool_error_not_fatal demoTools
      ⟨"fail_tool", "Always fails.", "schema", fun _ => .error "boom"⟩
      "id2" "fail_tool" "x" "boom" rfl rfl).1,
   (tool_error_not_fatal demoTools
      ⟨"fail_tool", "Always fails.", "schema", fun _ => .error "boom"⟩
      "id2" "fail_tool" "x" "boom" rfl rfl).2
     (fun _ => .ok ⟨[.toolUse "id2" "fail_tool" "x"]⟩) none ⟨false, []⟩ [] rfl⟩

theorem runStepInfer_next_shape (tools : List ToolDefinition)
    (infer : List MessageParam → Except String ModelMessage)
    (wo : Option String) (s : RunState) (evs : List Event)
    (s' : RunState) (em : Option String) (evs' : List Event)
    (hevs : ∀ n, Event.evInvoke n ∉ evs)
    (h : runStepInfer tools infer wo s evs = (.stepNext s' em, evs')) :
    (∃ t, s'.messages = s.messages ++ t)
    ∧ (∃ pre suf c, evs' = pre ++ [.evAppend (.assistant c)] ++ suf
        ∧ ∀ n, Event.evInvoke n ∉ pre)
    ∧ (em = none → ∃ ms0 c rs, s'.messages = ms0 ++ [.assistant c, .userToolResults rs])
    ∧ (em ≠ none → ∃ ms0 c, s'.messages = ms0 ++ [.assistant c]) := by
  cases hinf : infer s.messages with
  | error e =>
    rw [runStepInfer_inferError tools infer wo s evs e hinf] at h
    simp at h
  | ok response =>
    obtain ⟨content⟩ := response
    by_cases hreq : toolRequests content = []
    · cases content with
      | nil =>
        rw [runStepInfer_emptyContent tools infer wo s evs hinf] at h
        simp at h
      | cons b rest =>
        rw [runStepInfer_emit tools infer wo s evs b rest hinf hreq] at h
        have h1 := congrArg Prod.fst h
        have h2 := congrArg Prod.snd h
        injection h1 with hs he
        subst hs
        subst he
        subst h2
        refine ⟨⟨[.assistant (b :: rest)], rfl⟩,
          ⟨evs ++ [.evInfer], [.evEmit b.Text wo], b :: rest, by simp, ?_⟩,
          by simp, fun _ => ⟨s.messages, b :: rest, rfl⟩⟩
        intro n
        simp [hevs n]
    · rw [runStepInfer_withTools tools infer wo s evs content hinf hreq] at h
      have h1 := congrArg Prod.fst h
      have h2 := congrArg Prod.snd h
      injection h1 with hs he
      subst hs
      subst he
      subst h2
      refine ⟨⟨[.assistant content, .userToolResults (dispatchTools tools content).1], by simp⟩,
        ⟨evs ++ [.evInfer],
          ((dispatchTools tools content).2).map .evInvoke
            ++ [.evAppend (.userToolResults (dispatchTools tools content).1)],
          content, by simp, ?_⟩,
        fun _ => ⟨s.messages, content, (dispatchTools tools content).1, by simp⟩,
        by simp⟩
      intro n
      simp [hevs n]

/-- C8: the transcript is append-only across a continuing step (the old
transcript is a prefix of the new one; no turn is modified or removed),
the model's response turn is appended before any tool invocation runs,
and when tools ran the tool-result turn immediately follows that model
turn with no intervening turn. -/
theorem transcript_append_only (tools : List ToolDefinition)
    (readRes : Except String String)
    (infer : List MessageParam → Except String ModelMessage)
    (wo : Option String) (s s' : RunState) (em : Option String) (evs : List Event)
    (h : runStep tools readRes infer wo s = (.stepNext s' em, evs)) :
    (∃ t, s'.messages = s.messages ++ t)
    ∧ (∃ pre suf c, evs = pre ++ [.evAppend (.assistant c)] ++ suf
        ∧ ∀ n, Event.evInvoke n ∉ pre)
    ∧ (em = none → ∃ ms0 c rs, s'.messages = ms0 ++ [.assistant c, .userToolResults rs])
    ∧ (em ≠ none → ∃ ms0 c, s'.messages = ms0 ++ [.assistant c]) := by
  unfold runStep at h
  cases hti : s.takeInput with
  | false =>
    rw [hti] at h
    simp only [Bool.false_eq_true, if_false] at h
    exact runStepInfer_next_shape tools infer wo s [] s' em evs (by simp) h
  | true =>
    rw [hti] at h
    simp only [if_true] at h
    cases readRes with
    | error e => simp at h
    | ok input =>
      obtain ⟨⟨t, ht2⟩, hpre, h3, h4⟩ :=
        runStepInfer_next_shape tools infer wo
          { s with messages := s.messages ++ [.userText input] }
          [.evRead input, .evAppend (.userText input)] s' em evs (by simp) h
      refine ⟨⟨[.userText input] ++ t, ?_⟩, hpre, h3, h4⟩
      rw [ht2]
      simp

/-- C8 witness: a read, a two-tool model turn and its fed-back results,
on concrete data. -/
theorem transcript_append_only_witness :
    (∃ t, ([MessageParam.userText "q", .assistant demoContent,
        .userToolResults [⟨"id1", "contents of go.mod", false⟩,
          ⟨"id2", "Tool not found", true⟩]] : List MessageParam) = [] ++ t)
    ∧ (∃ pre suf c, ([Event.evRead "q", .evAppend (.userText "q"), .evInfer,
          .evAppend (.assistant demoContent), .evInvoke "read_file",
          .evAppend (.userToolResults [⟨"id1", "contents of go.mod", false⟩,
            ⟨"id2", "Tool not found", true⟩])] : List Event)
          = pre ++ [.evAppend (.assistant c)] ++ suf
        ∧ ∀ n, Event.evInvoke n ∉ pre)
    ∧ ((none : Option String) = none →
        ∃ ms0 c rs, ([MessageParam.userText "q", .assistant demoContent,
          .userToolResults [⟨"id1", "contents of go.mod", false⟩,
            ⟨"id2", "Tool not found", true⟩]] : List MessageParam)
          = ms0 ++ [.assistant c, .userToolResults rs])
    ∧ ((none : Option String) ≠ none →
        ∃ ms0 c, ([MessageParam.userText "q", .assistant demoContent,
          .userToolResults [⟨"id1", "contents of go.mod", false⟩,
            ⟨"id2", "Tool not found", true⟩]] : List MessageParam)
          = ms0 ++ [.assistant c]) := by
  have h := transcript_append_only demoTools (.ok "q") (fun _ => .ok ⟨demoContent⟩) none
    ⟨true, []⟩
    ⟨false, [.userText "q", .assistant demoContent,
      .userToolResults [⟨"id1", "contents of go.mod", false⟩,
        ⟨"id2", "Tool not found", true⟩]]⟩
    none
    [.evRead "q", .evAppend (.userText "q"), .evInfer,
     .evAppend (.assistant demoContent), .evInvoke "read_file",
     .evAppend (.userToolResults [⟨"id1", "contents of go.mod", false⟩,
       ⟨"id2", "Tool not found", true⟩])]
    (by decide)
  exact h

theorem runStepInfer_fst_wo (tools : List ToolDefinition)
    (infer : List MessageParam → Except String ModelMessage)
    (s : RunState) (evs : List Event) (o o' : Option String) :
    (runStepInfer tools infer o s evs).1 = (runStepInfer tools infer o' s evs).1 := by
  cases hinf : infer s.messages with
  | error e =>
    rw [runStepInfer_inferError tools infer o s evs e hinf,
      runStepInfer_inferError tools infer o' s evs e hinf]
  | ok response =>
    obtain ⟨content⟩ := response
    by_cases hreq : toolRequests content = []
    · cases content with
      | nil =>
        rw [runStepInfer_emptyContent tools infer o s evs hinf,
          runStepInfer_emptyContent tools infer o' s evs hinf]
      | cons b rest =>
        rw [runStepInfer_emit tools infer o s evs b rest hinf hreq,
          runStepInfer_emit tools infer o' s evs b rest hinf hreq]
    · rw [runStepInfer_withTools tools infer o s evs content hinf hreq,
        runStepInfer_withTools tools infer o' s evs content hinf hreq]

theorem runStep_fst_wo (tools : List ToolDefinition) (readRes : Except String String)
    (infer : List MessageParam → Except String ModelMessage)
    (s : RunState) (o o' : Option String) :
    (runStep tools readRes infer o s).1 = (runStep tools readRes infer o' s).1 := by
  unfold runStep
  cases hti : s.takeInput with
  | false =>
    simp only [Bool.false_eq_true, if_false]
    exact runStepInfer_fst_wo tools infer s [] o o'
  | true =>
    simp only [if_true]
    cases readRes with
    | error e => rfl
    | ok input =>
      exact runStepInfer_fst_wo tools infer
        { s with messages := s.messages ++ [.userText input] }
        [.evRead input, .evAppend (.userText input)] o o'

/-- C5: `writeToNetwork` takes the pending response writer, writes the
given text as the full response body with a success status, and raises
the completion signal exactly once per cycle — also when the underlying
write fails; the returned value is exactly the write's outcome, and the
loop's step does not depend on that outcome (it is advisory only and
the loop proceeds to await input). -/
theorem write_raises_done_once (chans : Channels) (w : ResponseWriter)
    (rest : List ResponseWriter) (message : String)
    (h : chans.responseChan = w :: rest) :
    ∃ chans' w' err, writeToNetwork chans message = some (chans', w', err)
      ∧ chans'.doneChan = chans.doneChan ++ [true]
      ∧ chans'.responseChan = rest
      ∧ chans'.requestChan = chans.requestChan
      ∧ w'.status = some 200
      ∧ (w.writeErr = none → w'.body = w.body ++ message)
      ∧ err = w.writeErr
      ∧ (∀ (tools : List ToolDefinition) (readRes : Except String String)
          (infer : List MessageParam → Except String ModelMessage)
          (s : RunState) (o o' : Option String),
          (runStep tools readRes infer o s).1 = (runStep tools readRes infer o' s).1) := by
  refine ⟨{ chans with responseChan := rest, doneChan := chans.doneChan ++ [true] },
    { w with
      headers := w.headers ++ [("Content-Type", "text/plain")],
      status := some 200,
      body := (match w.writeErr with
        | some _ => w.body
        | none => w.body ++ message) },
    w.writeErr, ?_, rfl, rfl, rfl, rfl, ?_, rfl,
    fun tools readRes infer s o o' => runStep_fst_wo tools readRes infer s o o'⟩
  · unfold writeToNetwork
    rw [h]
  · intro hnone
    rw [hnone]

/-- C5 witness: a writer whose underlying write fails still gets status
200 and exactly one completion signal. -/
theorem write_raises_done_once_witness :
    ∃ chans' w' err,
      writeToNetwork ⟨[], [⟨[], none, "", some "disk full"⟩], []⟩ "answer"
          = some (chans', w', err)
      ∧ chans'.doneChan = Channels.doneChan ⟨[], [⟨[], none, "", some "disk full"⟩], []⟩ ++ [true]
      ∧ chans'.responseChan = []
      ∧ chans'.requestChan = Channels.requestChan ⟨[], [⟨[], none, "", some "disk full"⟩], []⟩
      ∧ w'.status = some 200
      ∧ (ResponseWriter.writeErr ⟨[], none, "", some "disk full"⟩ = none →
          w'.body = ResponseWriter.body ⟨[], none, "", some "disk full"⟩ ++ "answer")
      ∧ err = ResponseWriter.writeErr ⟨[], none, "", some "disk full"⟩
      ∧ (∀ (tools : List ToolDefinition) (readRes : Except String String)
          (infer : List MessageParam → Except String ModelMessage)
          (s : RunState) (o o' : Option String),
          (runStep tools readRes infer o s).1 = (runStep tools readRes infer o' s).1) :=
  write_raises_done_once ⟨[], [⟨[], none, "", some "disk full"⟩], []⟩
    ⟨[], none, "", some "disk full"⟩ [] "answer" rfl

end GoAgent

